import Mathlib

/-!
Verification of the duplicate-detection engine of the file-deduplicator
repository, as a shallow embedding in Lean.

Modelling conventions, justified once here:

* Go `string` values are Lean `String`s; the byte-indexed loops of the source
  only ever run on ASCII data ('0'/'1' fingerprints, hex digests, policy
  names), where Go bytes and Lean characters coincide, so the loops are
  embedded over `String.data` character lists.
* Go `int`/`int64` are `Int`; Go integer division truncates toward zero,
  which is `Int.div`.
* Go `time.Time` is ordered by `Before`/`After` only, so modification times
  are embedded as `Int` with `<`.
* The `Similarity float64` field only ever holds `100.0` or the value
  `100 - t/64*100` (resp. `50 + t`) for an integer threshold `t` in the
  configured range: all of these are dyadic rationals with tiny numerators,
  on which every float64 operation the source performs (division by 64,
  multiplication by 100, subtraction from 100, addition to 50, comparison
  with 50) is exact.  The field is therefore embedded as `ℚ`.
* Go `map[string][]FileHash` grouping appends files in scan order under each
  key and is then iterated in an unspecified order; the embedding enumerates
  the distinct keys with `List.dedup` of the key list.  Every claim proved
  about the grouping output is insensitive to the order of the groups.
* Go `for i := a; i < n; i++` loops that mutate a `visited` set are embedded
  as structural recursion over the index list `List.range' a (n - a)` with
  the visited set passed explicitly.
-/

/-- Record of one scanned file (source `part_007`, `type FileHash struct`). -/
structure FileHash where
  Path : String
  Size : Int
  Hash : String
  ModTime : Int
  PHash : String
deriving DecidableEq

instance : Inhabited FileHash := ⟨⟨"", 0, "", 0, ""⟩⟩

/-- Group of duplicate files (source `part_007`, `type DuplicateGroup struct`). -/
structure DuplicateGroup where
  Hash : String
  Size : Int
  Files : List FileHash
  Similarity : ℚ
deriving DecidableEq

/-- The fields of the source's global `Config` that the embedded engine
functions read (source `part_007`, `type Config struct`); the source's other
fields are consumed only by the excluded CLI/TUI layers. -/
structure Config where
  PerceptualMode : Bool
  SimilarityThreshold : Int
  KeepCriteria : String
deriving DecidableEq

/-- Hamming distance between two hash strings (source `part_001`,
`func hammingDistance`): `-1` on a length mismatch, otherwise the number of
positions where the two strings differ. -/
def hammingDistance (hash1 hash2 : String) : Int :=
  if hash1.length ≠ hash2.length then -1
  else ((hash1.data.zip hash2.data).filter (fun p => p.1 != p.2)).length

/-- Similarity predicate (source `part_001`, `func isSimilarImage`):
`dist >= 0 && dist <= threshold`. -/
def isSimilarImage (hash1 hash2 : String) (threshold : Int) : Bool :=
  let dist := hammingDistance hash1 hash2
  decide (0 ≤ dist) && decide (dist ≤ threshold)

section HammingLemmas

/-- Counting differing zip pairs is counting differing positions. -/
lemma zip_diff_length_eq (l1 : List Char) :
    ∀ l2 : List Char, l1.length = l2.length →
      ((l1.zip l2).filter (fun p => p.1 != p.2)).length =
        ((List.range l1.length).filter (fun i => l1.get? i != l2.get? i)).length := by
  induction l1 with
  | nil => intro l2 h; simp
  | cons a l1 ih =>
    intro l2 h
    cases l2 with
    | nil => simp at h
    | cons b l2 =>
      simp only [List.length_cons, Nat.succ.injEq] at h
      have hmap : (List.filter (fun i => (a :: l1).get? i != (b :: l2).get? i)
          (List.map Nat.succ (List.range l1.length))).length =
          (List.filter (fun i => l1.get? i != l2.get? i) (List.range l1.length)).length := by
        rw [List.filter_map, List.length_map]
        have hfun : ((fun i => (a :: l1).get? i != (b :: l2).get? i) ∘ Nat.succ) =
            (fun i => l1.get? i != l2.get? i) := by
          funext i; rfl
        rw [hfun]
      have hzero : ((a :: l1).get? 0 != (b :: l2).get? 0) = (a != b) := rfl
      simp only [List.zip_cons_cons, List.length_cons, List.range_succ_eq_map,
        List.filter_cons, hzero]
      by_cases hab : (a != b) = true
      · simp only [hab, if_true, List.length_cons, hmap, ih l2 h]
      · simp only [Bool.not_eq_true] at hab
        simp only [hab, Bool.false_eq_true, if_false, hmap, ih l2 h]

end HammingLemmas

/-- C8: `hammingDistance` returns the sentinel -1 exactly when the two strings
have different lengths, otherwise the count of differing positions, and
`isSimilarImage` holds iff the lengths agree and the distance lies in
`[0, threshold]`. -/
theorem hammingDistance_sentinel_and_isSimilar :
    (∀ h1 h2 : String, h1.length ≠ h2.length → hammingDistance h1 h2 = -1) ∧
    (∀ h1 h2 : String, h1.length = h2.length →
      hammingDistance h1 h2 =
        ((List.range h1.length).filter (fun i => h1.data.get? i != h2.data.get? i)).length) ∧
    (∀ (h1 h2 : String) (t : Int),
      isSimilarImage h1 h2 t = true ↔
        h1.length = h2.length ∧ 0 ≤ hammingDistance h1 h2 ∧ hammingDistance h1 h2 ≤ t) := by
  have hlen : ∀ s : String, s.length = s.data.length := fun s => rfl
  refine ⟨fun h1 h2 hne => by simp [hammingDistance, hne], fun h1 h2 heq => ?_, ?_⟩
  · rw [hammingDistance, if_neg (by simp [heq])]
    have := zip_diff_length_eq h1.data h2.data (by rw [← hlen, ← hlen, heq])
    rw [this]
    rfl
  · intro h1 h2 t
    by_cases heq : h1.length = h2.length
    · have hnn : 0 ≤ hammingDistance h1 h2 := by
        rw [hammingDistance, if_neg (by simp [heq])]
        exact Int.ofNat_nonneg _
      simp [isSimilarImage, heq, hnn]
    · have : hammingDistance h1 h2 = -1 := by simp [hammingDistance, heq]
      simp [isSimilarImage, this, heq]

/-- Witness for C8: concrete instantiations of all three conjuncts. -/
theorem hammingDistance_sentinel_and_isSimilar_witness :
    ("ab".length ≠ "c".length ∧ hammingDistance "ab" "c" = -1) ∧
    ("0101".length = "1010".length ∧
      hammingDistance "0101" "1010" =
        ((List.range "0101".length).filter
          (fun i => "0101".data.get? i != "1010".data.get? i)).length) ∧
    (isSimilarImage "0110" "0110" 0 = true ↔
      "0110".length = "0110".length ∧ 0 ≤ hammingDistance "0110" "0110" ∧
        hammingDistance "0110" "0110" ≤ 0) :=
  ⟨⟨by decide, hammingDistance_sentinel_and_isSimilar.1 "ab" "c" (by decide)⟩,
   ⟨by decide, hammingDistance_sentinel_and_isSimilar.2.1 "0101" "1010" (by decide)⟩,
   hammingDistance_sentinel_and_isSimilar.2.2 "0110" "0110" 0⟩

/-- Distinct content digests of a hash list, modelling the key set of the Go
`map[string][]FileHash` built by `findDuplicates` (group discovery order is
unspecified in Go; no proved claim depends on it). -/
def hashKeys (fileHashes : List FileHash) : List String :=
  (fileHashes.map (fun fh => fh.Hash)).dedup

/-- Exact-match grouping (source `part_007`, `findDuplicates` lines 1057-1075,
duplicated for regular files inside `findPerceptualDuplicates`): partition by
digest, keep partitions with more than one member, `Similarity` 100.0, `Size`
taken from the first file of the partition. -/
def exactGroups (fileHashes : List FileHash) : List DuplicateGroup :=
  (hashKeys fileHashes).filterMap (fun h =>
    let files := fileHashes.filter (fun fh => fh.Hash == h)
    if 1 < files.length then
      some ⟨h, files.headI.Size, files, 100⟩
    else none)

section ExactLemmas

/-- Every exact group is the digest-filter of the input, has at least two
members and carries similarity 100. -/
lemma exactGroups_mem (fileHashes : List FileHash) (g : DuplicateGroup)
    (hg : g ∈ exactGroups fileHashes) :
    g.Files = fileHashes.filter (fun fh => fh.Hash == g.Hash) ∧
      2 ≤ g.Files.length ∧ g.Similarity = 100 := by
  rw [exactGroups, List.mem_filterMap] at hg
  obtain ⟨h, _, hsome⟩ := hg
  by_cases hlen : 1 < (fileHashes.filter (fun fh => fh.Hash == h)).length
  · simp only [hlen, if_pos] at hsome
    cases hsome
    exact ⟨rfl, hlen, rfl⟩
  · simp [hlen] at hsome

/-- Every digest shared by at least two files yields an exact group. -/
lemma exactGroups_exists (fileHashes : List FileHash) (d : String)
    (hd : 2 ≤ (fileHashes.filter (fun fh => fh.Hash == d)).length) :
    ∃ g ∈ exactGroups fileHashes, g.Hash = d := by
  have hne : fileHashes.filter (fun fh => fh.Hash == d) ≠ [] := by
    intro hnil; rw [hnil] at hd; simp at hd
  obtain ⟨fh, hfh⟩ := List.exists_mem_of_ne_nil _ hne
  rw [List.mem_filter] at hfh
  have hdmem : d ∈ hashKeys fileHashes := by
    rw [hashKeys, List.mem_dedup, List.mem_map]
    exact ⟨fh, hfh.1, by have := hfh.2; simpa using this⟩
  refine ⟨⟨d, (fileHashes.filter (fun fh => fh.Hash == d)).headI.Size,
      fileHashes.filter (fun fh => fh.Hash == d), 100⟩, ?_, rfl⟩
  rw [exactGroups, List.mem_filterMap]
  exact ⟨d, hdmem, by simp only [if_pos (show 1 < _ from hd)]⟩

/-- The digests of the produced exact groups are the distinct shared digests,
in particular without repetition. -/
lemma exactGroups_hashes (fileHashes : List FileHash) :
    (exactGroups fileHashes).map (fun g => g.Hash) =
      (hashKeys fileHashes).filter
        (fun h => decide (1 < (fileHashes.filter (fun fh => fh.Hash == h)).length)) := by
  rw [exactGroups]
  induction hashKeys fileHashes with
  | nil => rfl
  | cons h keys ih =>
    by_cases hlen : 1 < (fileHashes.filter (fun fh => fh.Hash == h)).length
    · simp only [List.filterMap_cons, hlen, if_pos, List.map_cons, List.filter_cons,
        decide_eq_true_eq, ih]
    · simp only [List.filterMap_cons, hlen, if_neg, List.filter_cons,
        decide_eq_true_eq, ih, if_false]

lemma exactGroups_hashes_nodup (fileHashes : List FileHash) :
    ((exactGroups fileHashes).map (fun g => g.Hash)).Nodup := by
  rw [exactGroups_hashes]
  exact (List.nodup_dedup _).filter _

end ExactLemmas

/-- Threshold-derived similarity score of an accepted perceptual group
(source `part_007`, `findPerceptualDuplicates` lines 1131-1135):
`100 - t/64*100`, replaced by `50 + t` when that falls below 50.  All the
float64 steps are exact on these dyadic values (see the file header). -/
def perceptualScore (t : Int) : ℚ :=
  let avgSimilarity : ℚ := 100 - ((t : ℚ) / 64 * 100)
  if avgSimilarity < 50 then 50 + (t : ℚ) else avgSimilarity

/-- Inner loop of the greedy sweep (source `part_007` lines 1117-1128):
`for j := i+1; j < len(imageFiles); j++`, skipping visited indices and
marking/collecting any index whose Hamming distance to the seed's
fingerprint lies in `[0, t]`.  The loop is embedded over its index list. -/
def scanJ (t : Int) (imgs : List FileHash) (seed : FileHash) :
    List Nat → List Nat → List FileHash → List FileHash × List Nat
  | [], visited, group => (group, visited)
  | j :: js, visited, group =>
    if j ∈ visited then scanJ t imgs seed js visited group
    else
      let dist := hammingDistance seed.PHash (imgs.getD j default).PHash
      if 0 ≤ dist ∧ dist ≤ t then
        scanJ t imgs seed js (j :: visited) (group ++ [imgs.getD j default])
      else scanJ t imgs seed js visited group

/-- Outer loop of the greedy sweep (source `part_007` lines 1110-1145):
`for i := 0; i < len(imageFiles); i++`, seeding a group at each unvisited
index, running the inner scan, and emitting the group when it has more than
one member. -/
def outerI (t : Int) (imgs : List FileHash) :
    List Nat → List Nat → List DuplicateGroup → List DuplicateGroup
  | [], _, dups => dups
  | i :: rest, visited, dups =>
    if i ∈ visited then outerI t imgs rest visited dups
    else
      let seed := imgs.getD i default
      let res := scanJ t imgs seed (List.range' (i + 1) (imgs.length - (i + 1)))
        (i :: visited) [seed]
      if 1 < res.1.length then
        outerI t imgs rest res.2
          (dups ++ [⟨seed.PHash, seed.Size, res.1, perceptualScore t⟩])
      else outerI t imgs rest res.2 dups

/-- Hybrid grouping (source `part_007`, `func findPerceptualDuplicates`):
split off the files carrying a perceptual fingerprint, group the rest by
exact digest, then run the greedy sweep over the image files, appending its
groups to the exact ones. -/
def findPerceptualDuplicates (cfg : Config) (fileHashes : List FileHash) :
    List DuplicateGroup :=
  let part := fileHashes.partition (fun fh => fh.PHash != "")
  let imageFiles := part.1
  let regularFiles := part.2
  outerI cfg.SimilarityThreshold imageFiles (List.range imageFiles.length) []
    (exactGroups regularFiles)

/-- Top-level grouping entry point (source `part_007`, `func findDuplicates`). -/
def findDuplicates (cfg : Config) (fileHashes : List FileHash) : List DuplicateGroup :=
  if cfg.PerceptualMode then findPerceptualDuplicates cfg fileHashes
  else exactGroups fileHashes

/-- Follows the spec's words (§4.4, hybrid mode) as the reference for C2: a
single-linkage greedy sweep in input order, where each not-yet-taken file
seeds a cluster that absorbs every later not-yet-taken file within the
threshold of the SEED's fingerprint. -/
def specGreedySweep (t : Int) (l : List FileHash) : List (List FileHash) :=
  match l with
  | [] => []
  | seed :: rest =>
    (seed :: rest.filter (fun fh => isSimilarImage seed.PHash fh.PHash t)) ::
      specGreedySweep t (rest.filter (fun fh => !isSimilarImage seed.PHash fh.PHash t))
termination_by l.length
decreasing_by
  simp only [List.length_cons]
  exact Nat.lt_succ_of_le (List.length_filter_le _ _)

/-- Follows the spec's words (§4.4): a swept cluster becomes a group iff it
has at least two members; the group carries the seed's fingerprint and size
and the threshold-derived score. -/
def emitGroup (t : Int) (g : List FileHash) : Option DuplicateGroup :=
  if 1 < g.length then some ⟨g.headI.PHash, g.headI.Size, g, perceptualScore t⟩
  else none

/-- Indices in the window `[j, j+m)` not yet visited, in increasing order. -/
def unvisIdxs (j m : Nat) (visited : List Nat) : List Nat :=
  (List.range' j m).filter (fun k => decide (k ∉ visited))

/-- Files at the unvisited indices of the window `[j, j+m)`. -/
def unvisFiles (imgs : List FileHash) (j m : Nat) (visited : List Nat) :
    List FileHash :=
  (unvisIdxs j m visited).map (fun k => imgs.getD k default)

section SweepLemmas

/-- Elements of an index window lie in the window. -/
lemma mem_range'_bounds : ∀ (m j k : Nat), k ∈ List.range' j m → j ≤ k ∧ k < j + m := by
  intro m
  induction m with
  | zero => intro j k hk; simp [List.range'] at hk
  | succ m ih =>
    intro j k hk
    rw [List.range'_succ, List.mem_cons] at hk
    rcases hk with hk | hk
    · omega
    · have := ih (j + 1) k hk; omega

/-- Unfolding the unvisited window at its left end. -/
lemma unvisIdxs_succ (j m : Nat) (visited : List Nat) :
    unvisIdxs j (m + 1) visited =
      if j ∈ visited then unvisIdxs (j + 1) m visited
      else j :: unvisIdxs (j + 1) m visited := by
  rw [unvisIdxs, List.range'_succ, List.filter_cons]
  by_cases hj : j ∈ visited
  · simp [hj, unvisIdxs]
  · simp [hj, unvisIdxs]

/-- Marking an index left of the window does not change the window. -/
lemma unvisIdxs_mark_left (j m v : Nat) (visited : List Nat) (hv : v < j) :
    unvisIdxs j m (v :: visited) = unvisIdxs j m visited := by
  rw [unvisIdxs, unvisIdxs]
  apply List.filter_congr
  intro k hk
  have hjk := (mem_range'_bounds m j k hk).1
  apply decide_eq_decide.mpr
  simp only [List.mem_cons, not_or]
  constructor
  · exact fun h => h.2
  · exact fun h => ⟨by omega, h⟩

/-- The inner-scan branch condition is the `isSimilarImage` predicate. -/
lemma scan_cond_iff (a b : String) (t : Int) :
    (0 ≤ hammingDistance a b ∧ hammingDistance a b ≤ t) ↔
      isSimilarImage a b t = true := by
  simp [isSimilarImage]

/-- Characterization of the inner scan over the window `[j, j+m)`: it appends
to the group exactly the unvisited window files similar to the seed, and
pushes exactly their indices onto the visited list. -/
lemma scanJ_eq (t : Int) (imgs : List FileHash) (seed : FileHash) :
    ∀ (m j : Nat) (visited : List Nat) (group : List FileHash),
      scanJ t imgs seed (List.range' j m) visited group =
        (group ++ (unvisFiles imgs j m visited).filter
            (fun fh => isSimilarImage seed.PHash fh.PHash t),
          ((unvisIdxs j m visited).filter
              (fun k => isSimilarImage seed.PHash (imgs.getD k default).PHash t)).reverse
            ++ visited) := by
  intro m
  induction m with
  | zero =>
    intro j visited group
    simp [scanJ, unvisFiles, unvisIdxs, List.range']
  | succ m ih =>
    intro j visited group
    rw [List.range'_succ]
    by_cases hj : j ∈ visited
    · rw [scanJ, if_pos hj, ih]
      simp only [unvisFiles, unvisIdxs_succ, hj, if_true]
    · rw [scanJ, if_neg hj]
      simp only
      by_cases hsim : 0 ≤ hammingDistance seed.PHash (imgs.getD j default).PHash ∧
          hammingDistance seed.PHash (imgs.getD j default).PHash ≤ t
      · have hsim' : isSimilarImage seed.PHash (imgs.getD j default).PHash t = true :=
          (scan_cond_iff _ _ _).mp hsim
        rw [if_pos hsim, ih]
        have hwin : unvisIdxs (j + 1) m (j :: visited) = unvisIdxs (j + 1) m visited :=
          unvisIdxs_mark_left (j + 1) m j visited (by omega)
        simp only [unvisFiles, hwin, unvisIdxs_succ, hj, if_false, List.map_cons]
        rw [@List.filter_cons_of_pos FileHash
            (fun fh => isSimilarImage seed.PHash fh.PHash t) (imgs.getD j default) _ hsim',
          @List.filter_cons_of_pos Nat
            (fun k => isSimilarImage seed.PHash (imgs.getD k default).PHash t) j _ hsim',
          List.reverse_cons]
        simp [List.append_assoc]
      · have hsim' : isSimilarImage seed.PHash (imgs.getD j default).PHash t = false := by
          rw [← Bool.not_eq_true]
          exact fun hc => hsim ((scan_cond_iff _ _ _).mpr hc)
        have hne : isSimilarImage seed.PHash (imgs.getD j default).PHash t ≠ true := by
          rw [hsim']; simp
        rw [if_neg hsim, ih]
        simp only [unvisFiles, unvisIdxs_succ, hj, if_false, List.map_cons]
        rw [@List.filter_cons_of_neg FileHash
            (fun fh => isSimilarImage seed.PHash fh.PHash t) (imgs.getD j default) _ hne,
          @List.filter_cons_of_neg Nat
            (fun k => isSimilarImage seed.PHash (imgs.getD k default).PHash t) j _ hne]

end SweepLemmas

section OuterLemmas

/-- Unfolding of the spec sweep on a nonempty list. -/
lemma specGreedySweep_cons (t : Int) (seed : FileHash) (rest : List FileHash) :
    specGreedySweep t (seed :: rest) =
      (seed :: rest.filter (fun fh => isSimilarImage seed.PHash fh.PHash t)) ::
        specGreedySweep t (rest.filter (fun fh => !isSimilarImage seed.PHash fh.PHash t)) := by
  rw [specGreedySweep]

/-- Marking a batch of further indices filters them out of the window. -/
lemma unvisIdxs_remove_marked (j m : Nat) (visited marked : List Nat) :
    unvisIdxs j m (marked ++ visited) =
      (unvisIdxs j m visited).filter (fun k => decide (k ∉ marked)) := by
  rw [unvisIdxs, unvisIdxs, List.filter_filter]
  apply List.filter_congr
  intro k _
  simp only [List.mem_append, not_or, decide_eq_true_eq]
  by_cases h1 : k ∈ marked <;> by_cases h2 : k ∈ visited <;> simp [h1, h2]

/-- Filtering indices by a file predicate then reading the files is filtering
the files. -/
lemma map_getD_filter (imgs : List FileHash) (q : FileHash → Bool) (idxs : List Nat) :
    (idxs.filter (fun k => q (imgs.getD k default))).map (fun k => imgs.getD k default) =
      (idxs.map (fun k => imgs.getD k default)).filter q := by
  rw [List.filter_map]
  rfl

/-- After the inner scan marks the matched indices, the unvisited window
consists exactly of the unmatched files. -/
lemma unvisIdxs_after_scan (t : Int) (imgs : List FileHash) (seed : FileHash)
    (j m i : Nat) (visited : List Nat) (hij : i < j) :
    unvisIdxs j m
        (((unvisIdxs j m (i :: visited)).filter
            (fun k => isSimilarImage seed.PHash (imgs.getD k default).PHash t)).reverse
          ++ i :: visited) =
      (unvisIdxs j m visited).filter
        (fun k => !isSimilarImage seed.PHash (imgs.getD k default).PHash t) := by
  have hmark : ∀ v : List Nat, unvisIdxs j m (i :: v) = unvisIdxs j m v :=
    fun v => unvisIdxs_mark_left j m i v hij
  rw [unvisIdxs_remove_marked, hmark]
  apply List.filter_congr
  intro k hk
  by_cases hsim : isSimilarImage seed.PHash (imgs.getD k default).PHash t = true
  · have hkm : k ∈ (List.filter
        (fun k => isSimilarImage seed.PHash (imgs.getD k default).PHash t)
        (unvisIdxs j m visited)).reverse := by
      rw [List.mem_reverse, List.mem_filter]
      exact ⟨hk, hsim⟩
    simp only [hkm, hsim]
    simp
  · have hkm : k ∉ (List.filter
        (fun k => isSimilarImage seed.PHash (imgs.getD k default).PHash t)
        (unvisIdxs j m visited)).reverse := by
      rw [List.mem_reverse, List.mem_filter]
      rintro ⟨-, hc⟩
      exact hsim hc
    simp only [hkm, hsim]
    simp [hkm, hsim]

/-- Characterization of the outer sweep loop over the window `[i, i+m)`
covering the tail of the image list: it extends `dups` with exactly the
spec-described greedy-sweep groups of the unvisited window files. -/
lemma outerI_eq (t : Int) (imgs : List FileHash) :
    ∀ (m i : Nat) (visited : List Nat) (dups : List DuplicateGroup),
      i + m = imgs.length →
      outerI t imgs (List.range' i m) visited dups =
        dups ++ (specGreedySweep t (unvisFiles imgs i m visited)).filterMap (emitGroup t) := by
  intro m
  induction m with
  | zero =>
    intro i visited dups h
    simp [outerI, unvisFiles, unvisIdxs, List.range', specGreedySweep]
  | succ m ih =>
    intro i visited dups h
    rw [List.range'_succ]
    by_cases hi : i ∈ visited
    · rw [outerI, if_pos hi, ih (i + 1) visited dups (by omega)]
      simp only [unvisFiles, unvisIdxs_succ, hi, if_true]
    · rw [outerI, if_neg hi]
      simp only
      have hlen : imgs.length - (i + 1) = m := by omega
      rw [hlen, scanJ_eq]
      have hwin : unvisIdxs (i + 1) m (i :: visited) = unvisIdxs (i + 1) m visited :=
        unvisIdxs_mark_left (i + 1) m i visited (by omega)
      have hfiles : unvisFiles imgs (i + 1) m (i :: visited) =
          unvisFiles imgs (i + 1) m visited := by
        rw [unvisFiles, unvisFiles, hwin]
      simp only [hfiles, hwin, List.singleton_append]
      have hnext := unvisIdxs_after_scan t imgs (imgs.getD i default) (i + 1) m i visited
        (by omega)
      rw [hwin] at hnext
      have hnextFiles : unvisFiles imgs (i + 1) m
          (((unvisIdxs (i + 1) m visited).filter
              (fun k =>
                isSimilarImage (imgs.getD i default).PHash (imgs.getD k default).PHash t)).reverse
            ++ i :: visited) =
          (List.map (fun k => imgs.getD k default) (unvisIdxs (i + 1) m visited)).filter
            (fun fh => !isSimilarImage (imgs.getD i default).PHash fh.PHash t) := by
        rw [unvisFiles, hnext]
        exact map_getD_filter imgs
          (fun fh => !isSimilarImage (imgs.getD i default).PHash fh.PHash t)
          (unvisIdxs (i + 1) m visited)
      have hrhs : unvisFiles imgs i (m + 1) visited =
          imgs.getD i default :: unvisFiles imgs (i + 1) m visited := by
        rw [unvisFiles, unvisIdxs_succ, if_neg hi, List.map_cons, unvisFiles]
      rw [hrhs, specGreedySweep_cons, unvisFiles]
      by_cases hlen2 :
          1 < (imgs.getD i default ::
            (List.map (fun k => imgs.getD k default) (unvisIdxs (i + 1) m visited)).filter
              (fun fh => isSimilarImage (imgs.getD i default).PHash fh.PHash t)).length
      · rw [if_pos hlen2, ih (i + 1) _ _ (by omega), hnextFiles, List.filterMap_cons]
        have hemit : emitGroup t
            (imgs.getD i default ::
              (List.map (fun k => imgs.getD k default) (unvisIdxs (i + 1) m visited)).filter
                (fun fh => isSimilarImage (imgs.getD i default).PHash fh.PHash t)) =
            some ⟨(imgs.getD i default).PHash, (imgs.getD i default).Size,
              imgs.getD i default ::
                (List.map (fun k => imgs.getD k default) (unvisIdxs (i + 1) m visited)).filter
                  (fun fh => isSimilarImage (imgs.getD i default).PHash fh.PHash t),
              perceptualScore t⟩ := by
          rw [emitGroup, if_pos hlen2]
          rfl
        rw [hemit]
        simp [List.append_assoc]
      · rw [if_neg hlen2, ih (i + 1) _ _ (by omega), hnextFiles, List.filterMap_cons]
        have hemit : emitGroup t
            (imgs.getD i default ::
              (List.map (fun k => imgs.getD k default) (unvisIdxs (i + 1) m visited)).filter
                (fun fh => isSimilarImage (imgs.getD i default).PHash fh.PHash t)) =
            none := by
          rw [emitGroup, if_neg hlen2]
        rw [hemit]

end OuterLemmas

section TopLevel

/-- Reading every index of a list back out of the list is the identity. -/
lemma map_getD_range (l : List FileHash) :
    (List.range l.length).map (fun k => l.getD k default) = l := by
  induction l with
  | nil => rfl
  | cons a l ih =>
    rw [List.length_cons, List.range_succ_eq_map, List.map_cons, List.map_map]
    have hcomp : ((fun k => (a :: l).getD k default) ∘ Nat.succ) =
        (fun k => l.getD k default) := by
      funext k; rfl
    rw [hcomp, ih]
    rfl

/-- With nothing visited, the full window is the whole list. -/
lemma unvisFiles_full (imgs : List FileHash) :
    unvisFiles imgs 0 imgs.length [] = imgs := by
  rw [unvisFiles, unvisIdxs]
  have hfil : (List.range' 0 imgs.length).filter (fun k => decide (k ∉ ([] : List Nat))) =
      List.range' 0 imgs.length := by
    apply List.filter_eq_self.mpr
    intro k _
    simp
  rw [hfil, ← List.range_eq_range', map_getD_range]

/-- The negated image predicate is the no-fingerprint predicate. -/
lemma not_image_pred :
    (not ∘ fun fh : FileHash => fh.PHash != "") = (fun fh : FileHash => fh.PHash == "") := by
  funext fh
  simp [Function.comp, bne]

/-- Decomposition of the hybrid grouping: the exact groups of the files
without a fingerprint, followed by the greedy-sweep groups of the files with
one, the latter exactly as the spec-modelled sweep describes them. -/
lemma findPerceptualDuplicates_eq (cfg : Config) (fileHashes : List FileHash) :
    findPerceptualDuplicates cfg fileHashes =
      exactGroups (fileHashes.filter (fun fh => fh.PHash == "")) ++
        (specGreedySweep cfg.SimilarityThreshold
            (fileHashes.filter (fun fh => fh.PHash != ""))).filterMap
          (emitGroup cfg.SimilarityThreshold) := by
  rw [findPerceptualDuplicates]
  simp only [List.partition_eq_filter_filter, not_image_pred]
  rw [List.range_eq_range',
    outerI_eq cfg.SimilarityThreshold (fileHashes.filter (fun fh => fh.PHash != ""))
      (fileHashes.filter (fun fh => fh.PHash != "")).length 0 [] _ (by omega),
    unvisFiles_full]

end TopLevel

/-- C2: in hybrid mode the grouping engine returns exactly the exact-digest
groups of the fingerprint-less files followed by the groups of the
spec-described seed-based greedy sweep over the fingerprinted files (scan in
input order, match against the seed's fingerprint within the threshold, emit
only clusters of at least two members). -/
theorem findDuplicates_hybrid_eq_specSweep (cfg : Config) (fileHashes : List FileHash)
    (hp : cfg.PerceptualMode = true) :
    findDuplicates cfg fileHashes =
      exactGroups (fileHashes.filter (fun fh => fh.PHash == "")) ++
        (specGreedySweep cfg.SimilarityThreshold
            (fileHashes.filter (fun fh => fh.PHash != ""))).filterMap
          (emitGroup cfg.SimilarityThreshold) := by
  rw [findDuplicates, if_pos (by rw [hp]), findPerceptualDuplicates_eq]

/-- Witness for C2 at a concrete configuration and file list. -/
theorem findDuplicates_hybrid_eq_specSweep_witness :
    (Config.mk true 10 "oldest").PerceptualMode = true ∧
      findDuplicates (Config.mk true 10 "oldest")
          [⟨"/a", 3, "h1", 0, "0011"⟩, ⟨"/b", 4, "h2", 1, ""⟩] =
        exactGroups ([⟨"/a", 3, "h1", 0, "0011"⟩, ⟨"/b", 4, "h2", 1, ""⟩].filter
            (fun fh => fh.PHash == "")) ++
          (specGreedySweep 10 ([⟨"/a", 3, "h1", 0, "0011"⟩, ⟨"/b", 4, "h2", 1, ""⟩].filter
              (fun fh => fh.PHash != ""))).filterMap (emitGroup 10) :=
  ⟨rfl, findDuplicates_hybrid_eq_specSweep (Config.mk true 10 "oldest")
    [⟨"/a", 3, "h1", 0, "0011"⟩, ⟨"/b", 4, "h2", 1, ""⟩] rfl⟩

/-- C1: in exact mode the engine partitions the input by content digest:
every returned group consists of exactly the input files bearing its digest
in input order, has at least two members and similarity 100; every digest
borne by at least two files yields a group; and no digest yields two groups. -/
theorem findDuplicates_exact_partition (cfg : Config) (fileHashes : List FileHash)
    (hp : cfg.PerceptualMode = false) :
    (∀ g ∈ findDuplicates cfg fileHashes,
      g.Files = fileHashes.filter (fun fh => fh.Hash == g.Hash) ∧
        2 ≤ g.Files.length ∧ g.Similarity = 100) ∧
    (∀ d : String, 2 ≤ (fileHashes.filter (fun fh => fh.Hash == d)).length →
      ∃ g ∈ findDuplicates cfg fileHashes, g.Hash = d) ∧
    ((findDuplicates cfg fileHashes).map (fun g => g.Hash)).Nodup := by
  rw [findDuplicates, if_neg (by rw [hp]; exact Bool.false_ne_true)]
  exact ⟨exactGroups_mem fileHashes, exactGroups_exists fileHashes,
    exactGroups_hashes_nodup fileHashes⟩

/-- Witness for C1, including the spec's worked example: digests
`{A:"h1", B:"h1", C:"h2", D:"h1"}` produce exactly one group, for `"h1"`,
containing `{A, B, D}` in input order, and no group for `"h2"`. -/
theorem findDuplicates_exact_partition_witness :
    (Config.mk false 10 "oldest").PerceptualMode = false ∧
    (∀ g ∈ findDuplicates (Config.mk false 10 "oldest")
        [⟨"A", 1, "h1", 0, ""⟩, ⟨"B", 1, "h1", 1, ""⟩,
          ⟨"C", 1, "h2", 2, ""⟩, ⟨"D", 1, "h1", 3, ""⟩],
      g.Files = [⟨"A", 1, "h1", 0, ""⟩, ⟨"B", 1, "h1", 1, ""⟩,
          ⟨"C", 1, "h2", 2, ""⟩, ⟨"D", 1, "h1", 3, ""⟩].filter
          (fun fh => fh.Hash == g.Hash) ∧
        2 ≤ g.Files.length ∧ g.Similarity = 100) ∧
    findDuplicates (Config.mk false 10 "oldest")
        [⟨"A", 1, "h1", 0, ""⟩, ⟨"B", 1, "h1", 1, ""⟩,
          ⟨"C", 1, "h2", 2, ""⟩, ⟨"D", 1, "h1", 3, ""⟩] =
      [⟨"h1", 1, [⟨"A", 1, "h1", 0, ""⟩, ⟨"B", 1, "h1", 1, ""⟩, ⟨"D", 1, "h1", 3, ""⟩],
        100⟩] :=
  ⟨rfl,
   (findDuplicates_exact_partition (Config.mk false 10 "oldest")
     [⟨"A", 1, "h1", 0, ""⟩, ⟨"B", 1, "h1", 1, ""⟩,
       ⟨"C", 1, "h2", 2, ""⟩, ⟨"D", 1, "h1", 3, ""⟩] rfl).1,
   by decide⟩

section GroupInvariants

/-- Every cluster produced by the spec sweep is a sublist of its input, hence
keeps the input order. -/
lemma specGreedySweep_sublist (t : Int) :
    ∀ (n : Nat) (l : List FileHash), l.length ≤ n →
      ∀ g ∈ specGreedySweep t l, g.Sublist l := by
  intro n
  induction n with
  | zero =>
    intro l hl g hg
    have hnil : l = [] := by
      cases l with
      | nil => rfl
      | cons a l => simp at hl
    subst hnil
    have hempty : specGreedySweep t [] = [] := by rw [specGreedySweep]
    rw [hempty] at hg
    exact absurd hg (List.not_mem_nil g)
  | succ n ih =>
    intro l hl g hg
    cases l with
    | nil =>
      have hempty : specGreedySweep t [] = [] := by rw [specGreedySweep]
      rw [hempty] at hg
      exact absurd hg (List.not_mem_nil g)
    | cons seed rest =>
      rw [specGreedySweep_cons, List.mem_cons] at hg
      rcases hg with rfl | hg
      · exact List.Sublist.cons₂ seed (List.filter_sublist rest)
      · have hlen := List.length_filter_le
          (fun fh => !isSimilarImage seed.PHash fh.PHash t) rest
        have hsub := ih (rest.filter (fun fh => !isSimilarImage seed.PHash fh.PHash t))
          (by simp only [List.length_cons] at hl; omega) g hg
        exact hsub.trans ((List.filter_sublist rest).trans (List.sublist_cons_self seed rest))

/-- An emitted sweep group has the swept files as members, at least two of
them, and the threshold-derived similarity. -/
lemma emitGroup_some (t : Int) (gl : List FileHash) (g : DuplicateGroup)
    (h : emitGroup t gl = some g) :
    g.Files = gl ∧ 2 ≤ gl.length ∧ g.Similarity = perceptualScore t := by
  rw [emitGroup] at h
  by_cases hl : 1 < gl.length
  · rw [if_pos hl] at h
    cases h
    exact ⟨rfl, hl, rfl⟩
  · rw [if_neg hl] at h
    cases h

/-- The threshold-derived similarity score stays below 100 for thresholds
between 1 and 49. -/
lemma perceptualScore_lt_100 (t : Int) (h1 : 1 ≤ t) (h2 : t ≤ 49) :
    perceptualScore t < 100 := by
  have hq1 : (1 : ℚ) ≤ (t : ℚ) := by exact_mod_cast h1
  have hq2 : (t : ℚ) ≤ 49 := by exact_mod_cast h2
  rw [perceptualScore]
  split_ifs with h
  · linarith
  · linarith

end GroupInvariants

/-- C9: no duplicate group, in either mode, ever has fewer than two members. -/
theorem no_singleton_groups (cfg : Config) (fileHashes : List FileHash)
    (g : DuplicateGroup) (hg : g ∈ findDuplicates cfg fileHashes) :
    2 ≤ g.Files.length := by
  rw [findDuplicates] at hg
  by_cases hp : cfg.PerceptualMode = true
  · rw [if_pos hp, findPerceptualDuplicates_eq, List.mem_append] at hg
    rcases hg with hg | hg
    · exact (exactGroups_mem _ g hg).2.1
    · rw [List.mem_filterMap] at hg
      obtain ⟨gl, _, hemit⟩ := hg
      obtain ⟨hfiles, hlen, -⟩ := emitGroup_some _ gl g hemit
      rw [hfiles]
      exact hlen
  · rw [if_neg hp] at hg
    exact (exactGroups_mem _ g hg).2.1

/-- Witness for C9 at a concrete exact-mode duplicate pair. -/
theorem no_singleton_groups_witness :
    (⟨"h1", 1, [⟨"A", 1, "h1", 0, ""⟩, ⟨"B", 1, "h1", 1, ""⟩], 100⟩ : DuplicateGroup) ∈
        findDuplicates (Config.mk false 10 "oldest")
          [⟨"A", 1, "h1", 0, ""⟩, ⟨"B", 1, "h1", 1, ""⟩] ∧
      2 ≤ (⟨"h1", 1, [⟨"A", 1, "h1", 0, ""⟩, ⟨"B", 1, "h1", 1, ""⟩], 100⟩ :
        DuplicateGroup).Files.length :=
  ⟨by decide, no_singleton_groups (Config.mk false 10 "oldest")
    [⟨"A", 1, "h1", 0, ""⟩, ⟨"B", 1, "h1", 1, ""⟩] _ (by decide)⟩

/-- C10: the members of every group, in either mode, form a sublist of the
input list of hashed files, i.e. they appear in input order (in particular a
perceptual group lists its seed first, and this stored order is what the
selector iterates over). -/
theorem group_members_sublist_input (cfg : Config) (fileHashes : List FileHash)
    (g : DuplicateGroup) (hg : g ∈ findDuplicates cfg fileHashes) :
    g.Files.Sublist fileHashes := by
  rw [findDuplicates] at hg
  by_cases hp : cfg.PerceptualMode = true
  · rw [if_pos hp, findPerceptualDuplicates_eq, List.mem_append] at hg
    rcases hg with hg | hg
    · rw [(exactGroups_mem _ g hg).1]
      exact (List.filter_sublist _).trans (List.filter_sublist _)
    · rw [List.mem_filterMap] at hg
      obtain ⟨gl, hgl, hemit⟩ := hg
      rw [(emitGroup_some _ gl g hemit).1]
      have hsub := specGreedySweep_sublist cfg.SimilarityThreshold
        (fileHashes.filter (fun fh => fh.PHash != "")).length
        (fileHashes.filter (fun fh => fh.PHash != "")) le_rfl gl hgl
      exact hsub.trans (List.filter_sublist _)
  · rw [if_neg hp] at hg
    rw [(exactGroups_mem _ g hg).1]
    exact List.filter_sublist _

/-- Witness for C10 at a concrete hybrid-mode input (the perceptual score is
left symbolic because float/rational arithmetic is irrelevant to order). -/
theorem group_members_sublist_input_witness :
    (⟨"0000", 5, [⟨"/a", 5, "ha", 0, "0000"⟩, ⟨"/c", 5, "hc", 2, "0001"⟩],
        perceptualScore 10⟩ : DuplicateGroup) ∈
      findDuplicates (Config.mk true 10 "oldest")
        [⟨"/a", 5, "ha", 0, "0000"⟩, ⟨"/b", 4, "hb", 1, ""⟩, ⟨"/c", 5, "hc", 2, "0001"⟩] ∧
    (⟨"0000", 5, [⟨"/a", 5, "ha", 0, "0000"⟩, ⟨"/c", 5, "hc", 2, "0001"⟩],
        perceptualScore 10⟩ : DuplicateGroup).Files.Sublist
      [⟨"/a", 5, "ha", 0, "0000"⟩, ⟨"/b", 4, "hb", 1, ""⟩, ⟨"/c", 5, "hc", 2, "0001"⟩] :=
  ⟨by
    have h : findDuplicates (Config.mk true 10 "oldest")
        [⟨"/a", 5, "ha", 0, "0000"⟩, ⟨"/b", 4, "hb", 1, ""⟩, ⟨"/c", 5, "hc", 2, "0001"⟩] =
        [⟨"0000", 5, [⟨"/a", 5, "ha", 0, "0000"⟩, ⟨"/c", 5, "hc", 2, "0001"⟩],
          perceptualScore 10⟩] := rfl
    rw [h]
    exact List.mem_cons_self _ _,
   group_members_sublist_input (Config.mk true 10 "oldest")
    [⟨"/a", 5, "ha", 0, "0000"⟩, ⟨"/b", 4, "hb", 1, ""⟩, ⟨"/c", 5, "hc", 2, "0001"⟩] _
    (by
      have h : findDuplicates (Config.mk true 10 "oldest")
          [⟨"/a", 5, "ha", 0, "0000"⟩, ⟨"/b", 4, "hb", 1, ""⟩, ⟨"/c", 5, "hc", 2, "0001"⟩] =
          [⟨"0000", 5, [⟨"/a", 5, "ha", 0, "0000"⟩, ⟨"/c", 5, "hc", 2, "0001"⟩],
            perceptualScore 10⟩] := rfl
      rw [h]
      exact List.mem_cons_self _ _)⟩

/-- C4: every group of the hybrid run that is not one of the exact-digest
groups carries a similarity equal to `100 - t/64*100`, replaced by `50 + t`
when that value falls below 50 — a function of the threshold alone, never of
the members' actual pairwise distances. -/
theorem perceptual_similarity_formula (cfg : Config) (fileHashes : List FileHash)
    (hp : cfg.PerceptualMode = true) (g : DuplicateGroup)
    (hg : g ∈ findDuplicates cfg fileHashes) :
    g ∈ exactGroups (fileHashes.filter (fun fh => fh.PHash == "")) ∨
      g.Similarity =
        (if (100 : ℚ) - (cfg.SimilarityThreshold : ℚ) / 64 * 100 < 50
          then 50 + (cfg.SimilarityThreshold : ℚ)
          else (100 : ℚ) - (cfg.SimilarityThreshold : ℚ) / 64 * 100) := by
  rw [findDuplicates, if_pos (by rw [hp]), findPerceptualDuplicates_eq,
    List.mem_append] at hg
  rcases hg with hg | hg
  · exact Or.inl hg
  · rw [List.mem_filterMap] at hg
    obtain ⟨gl, -, hemit⟩ := hg
    exact Or.inr ((emitGroup_some _ gl g hemit).2.2)

/-- Witness for C4 at a concrete hybrid run with threshold 10. -/
theorem perceptual_similarity_formula_witness :
    (Config.mk true 10 "x").PerceptualMode = true ∧
    (⟨"0000", 5, [⟨"/a", 5, "ha", 0, "0000"⟩, ⟨"/b", 5, "hb", 1, "0000"⟩],
        perceptualScore 10⟩ : DuplicateGroup) ∈
      findDuplicates (Config.mk true 10 "x")
        [⟨"/a", 5, "ha", 0, "0000"⟩, ⟨"/b", 5, "hb", 1, "0000"⟩] ∧
    ((⟨"0000", 5, [⟨"/a", 5, "ha", 0, "0000"⟩, ⟨"/b", 5, "hb", 1, "0000"⟩],
        perceptualScore 10⟩ : DuplicateGroup) ∈
        exactGroups ([⟨"/a", 5, "ha", 0, "0000"⟩, ⟨"/b", 5, "hb", 1, "0000"⟩].filter
          (fun fh => fh.PHash == "")) ∨
      (⟨"0000", 5, [⟨"/a", 5, "ha", 0, "0000"⟩, ⟨"/b", 5, "hb", 1, "0000"⟩],
          perceptualScore 10⟩ : DuplicateGroup).Similarity =
        (if (100 : ℚ) - ((Config.mk true 10 "x").SimilarityThreshold : ℚ) / 64 * 100 < 50
          then 50 + ((Config.mk true 10 "x").SimilarityThreshold : ℚ)
          else (100 : ℚ) -
            ((Config.mk true 10 "x").SimilarityThreshold : ℚ) / 64 * 100)) := by
  have h : findDuplicates (Config.mk true 10 "x")
      [⟨"/a", 5, "ha", 0, "0000"⟩, ⟨"/b", 5, "hb", 1, "0000"⟩] =
      [⟨"0000", 5, [⟨"/a", 5, "ha", 0, "0000"⟩, ⟨"/b", 5, "hb", 1, "0000"⟩],
        perceptualScore 10⟩] := rfl
  have hmem : (⟨"0000", 5, [⟨"/a", 5, "ha", 0, "0000"⟩, ⟨"/b", 5, "hb", 1, "0000"⟩],
      perceptualScore 10⟩ : DuplicateGroup) ∈
      findDuplicates (Config.mk true 10 "x")
        [⟨"/a", 5, "ha", 0, "0000"⟩, ⟨"/b", 5, "hb", 1, "0000"⟩] := by
    rw [h]
    exact List.mem_cons_self _ _
  exact ⟨rfl, hmem,
    perceptual_similarity_formula (Config.mk true 10 "x")
      [⟨"/a", 5, "ha", 0, "0000"⟩, ⟨"/b", 5, "hb", 1, "0000"⟩] rfl _ hmem⟩

/-- C3 (amended): for thresholds between 1 and 49, every hybrid-run group
outside the exact-digest groups has similarity strictly below 100, and every
exact-digest group has similarity exactly 100.  (As stated over the full
configured range 0-64 the claim fails: at threshold 0 — and 50 — the
perceptual score equals 100, and for 51-64 it exceeds 100.) -/
theorem perceptual_similarity_lt_100_amended (cfg : Config) (fileHashes : List FileHash)
    (hp : cfg.PerceptualMode = true) (h1 : 1 ≤ cfg.SimilarityThreshold)
    (h2 : cfg.SimilarityThreshold ≤ 49) (g : DuplicateGroup)
    (hg : g ∈ findDuplicates cfg fileHashes) :
    (g ∈ exactGroups (fileHashes.filter (fun fh => fh.PHash == "")) →
      g.Similarity = 100) ∧
    (g ∉ exactGroups (fileHashes.filter (fun fh => fh.PHash == "")) →
      g.Similarity < 100) := by
  constructor
  · intro hex
    exact (exactGroups_mem _ g hex).2.2
  · intro hnex
    rw [findDuplicates, if_pos (by rw [hp]), findPerceptualDuplicates_eq,
      List.mem_append] at hg
    rcases hg with hg | hg
    · exact absurd hg hnex
    · rw [List.mem_filterMap] at hg
      obtain ⟨gl, -, hemit⟩ := hg
      rw [(emitGroup_some _ gl g hemit).2.2]
      exact perceptualScore_lt_100 cfg.SimilarityThreshold h1 h2

/-- Witness for the amended C3 at threshold 10. -/
theorem perceptual_similarity_lt_100_amended_witness :
    (Config.mk true 10 "x").PerceptualMode = true ∧
    1 ≤ (Config.mk true 10 "x").SimilarityThreshold ∧
    (Config.mk true 10 "x").SimilarityThreshold ≤ 49 ∧
    ((⟨"0000", 5, [⟨"/a", 5, "ha", 0, "0000"⟩, ⟨"/b", 5, "hb", 1, "0000"⟩],
        perceptualScore 10⟩ : DuplicateGroup) ∉
        exactGroups ([⟨"/a", 5, "ha", 0, "0000"⟩, ⟨"/b", 5, "hb", 1, "0000"⟩].filter
          (fun fh => fh.PHash == "")) →
      (⟨"0000", 5, [⟨"/a", 5, "ha", 0, "0000"⟩, ⟨"/b", 5, "hb", 1, "0000"⟩],
        perceptualScore 10⟩ : DuplicateGroup).Similarity < 100) := by
  have h : findDuplicates (Config.mk true 10 "x")
      [⟨"/a", 5, "ha", 0, "0000"⟩, ⟨"/b", 5, "hb", 1, "0000"⟩] =
      [⟨"0000", 5, [⟨"/a", 5, "ha", 0, "0000"⟩, ⟨"/b", 5, "hb", 1, "0000"⟩],
        perceptualScore 10⟩] := rfl
  have hmem : (⟨"0000", 5, [⟨"/a", 5, "ha", 0, "0000"⟩, ⟨"/b", 5, "hb", 1, "0000"⟩],
      perceptualScore 10⟩ : DuplicateGroup) ∈
      findDuplicates (Config.mk true 10 "x")
        [⟨"/a", 5, "ha", 0, "0000"⟩, ⟨"/b", 5, "hb", 1, "0000"⟩] := by
    rw [h]
    exact List.mem_cons_self _ _
  exact ⟨rfl, by decide, by decide,
    (perceptual_similarity_lt_100_amended (Config.mk true 10 "x")
      [⟨"/a", 5, "ha", 0, "0000"⟩, ⟨"/b", 5, "hb", 1, "0000"⟩] rfl (by decide) (by decide)
      _ hmem).2⟩

/-- Counterexample for C3 as stated: at the in-range threshold 0, the hybrid
run clusters two identical images into a perceptual (non-exact) group whose
similarity is exactly 100, not strictly below it. -/
theorem perceptual_similarity_lt_100_counterexample :
    (Config.mk true 0 "oldest").PerceptualMode = true ∧
    0 ≤ (Config.mk true 0 "oldest").SimilarityThreshold ∧
    (Config.mk true 0 "oldest").SimilarityThreshold ≤ 64 ∧
    ¬ (∀ g ∈ findDuplicates (Config.mk true 0 "oldest")
          [⟨"/a", 5, "ha", 0, "0000"⟩, ⟨"/b", 5, "hb", 1, "0000"⟩],
        g ∈ exactGroups ([⟨"/a", 5, "ha", 0, "0000"⟩, ⟨"/b", 5, "hb", 1, "0000"⟩].filter
            (fun fh => fh.PHash == "")) ∨
          g.Similarity < 100) := by
  refine ⟨rfl, by decide, by decide, ?_⟩
  intro hall
  have h : findDuplicates (Config.mk true 0 "oldest")
      [⟨"/a", 5, "ha", 0, "0000"⟩, ⟨"/b", 5, "hb", 1, "0000"⟩] =
      [⟨"0000", 5, [⟨"/a", 5, "ha", 0, "0000"⟩, ⟨"/b", 5, "hb", 1, "0000"⟩],
        perceptualScore 0⟩] := rfl
  have hscore : perceptualScore 0 = 100 := by
    rw [perceptualScore]
    norm_num
  have hmem := hall _ (by rw [h]; exact List.mem_cons_self _ _)
  have hempty : exactGroups ([⟨"/a", 5, "ha", 0, "0000"⟩,
      ⟨"/b", 5, "hb", 1, "0000"⟩].filter (fun fh => fh.PHash == "")) =
      ([] : List DuplicateGroup) := rfl
  rcases hmem with hmem | hmem
  · rw [hempty] at hmem
    exact absurd hmem (List.not_mem_nil _)
  · rw [show (⟨"0000", 5, [⟨"/a", 5, "ha", 0, "0000"⟩, ⟨"/b", 5, "hb", 1, "0000"⟩],
        perceptualScore 0⟩ : DuplicateGroup).Similarity = perceptualScore 0 from rfl,
      hscore] at hmem
    exact absurd hmem (lt_irrefl _)

/-- Substring test over character lists, modelling Go `strings.Contains` on
the ASCII paths the selector sees. -/
def containsStr (s target : String) : Bool :=
  (List.range (s.data.length + 1)).any (fun i => target.data.isPrefixOf (s.data.drop i))

/-- Go `strings.HasPrefix` over character lists. -/
def hasPrefixStr (s pre : String) : Bool :=
  pre.data.isPrefixOf s.data

/-- Go `strings.TrimPrefix` over character lists. -/
def trimPrefixStr (s pre : String) : String :=
  if pre.data.isPrefixOf s.data then ⟨s.data.drop pre.data.length⟩ else s

/-- Go `strings.ToLower` restricted to its ASCII behaviour, which is all the
selector's policy names exercise. -/
def lowerStr (s : String) : String :=
  ⟨s.data.map Char.toLower⟩

/-- First member whose path contains the target, defaulting to index 0
(source `part_007`, `selectFileToKeep`, `path:` branch). -/
def firstIdxContaining (files : List FileHash) (target : String) : Nat :=
  match files.findIdx? (fun fh => containsStr fh.Path target) with
  | some i => i
  | none => 0

/-- One step of the selector's scan: replace the best (index, value) pair
exactly when the strict comparison fires, mirroring the Go loops that read
`files[bestIdx]` through the carried best index. -/
def bestStep (better : FileHash → FileHash → Bool) :
    Nat × FileHash → Nat × FileHash → Nat × FileHash :=
  fun acc p => if better p.2 acc.2 then p else acc

/-- Index scan of the selector loops (source `part_007`, `selectFileToKeep`):
start at index 0 and replace only on strict improvement. -/
def bestIdx (better : FileHash → FileHash → Bool) (files : List FileHash) : Nat :=
  (files.enum.foldl (bestStep better) (0, files.headI)).1

/-- Representative selection (source `part_007`, `func selectFileToKeep`). -/
def selectFileToKeep (cfg : Config) (group : DuplicateGroup) : Nat :=
  let files := group.Files
  if hasPrefixStr cfg.KeepCriteria "path:" then
    firstIdxContaining files (trimPrefixStr cfg.KeepCriteria "path:")
  else
    match lowerStr cfg.KeepCriteria with
    | "oldest" => bestIdx (fun fh best => decide (fh.ModTime < best.ModTime)) files
    | "newest" => bestIdx (fun fh best => decide (best.ModTime < fh.ModTime)) files
    | "largest" => bestIdx (fun fh best => decide (best.Size < fh.Size)) files
    | "smallest" => bestIdx (fun fh best => decide (fh.Size < best.Size)) files
    | _ => 0

/-- The selected index is in range, attains the minimum of the key, and beats
every earlier index strictly — so the first key-minimizer wins ties. -/
def FirstMinSpec (key : FileHash → Int) (files : List FileHash) (k : Nat) : Prop :=
  k < files.length ∧
    (∀ j, j < files.length →
      key (files.getD k default) ≤ key (files.getD j default)) ∧
    (∀ j, j < k → key (files.getD k default) < key (files.getD j default))

/-- The selected index is in range, attains the maximum of the key, and beats
every earlier index strictly — so the first key-maximizer wins ties. -/
def FirstMaxSpec (key : FileHash → Int) (files : List FileHash) (k : Nat) : Prop :=
  k < files.length ∧
    (∀ j, j < files.length →
      key (files.getD j default) ≤ key (files.getD k default)) ∧
    (∀ j, j < k → key (files.getD j default) < key (files.getD k default))

section SelectorLemmas

/-- The selector fold with the minimizing comparison, from position `m` with
current best `b`. -/
def bestFold (key : FileHash → Int) (m b : Nat) (v : FileHash)
    (l : List FileHash) : Nat × FileHash :=
  (List.enumFrom m l).foldl (bestStep (fun x y => decide (key x < key y))) (b, v)

lemma drop_succ_of_drop_cons (xs : List FileHash) :
    ∀ (m : Nat) (a : FileHash) (l : List FileHash),
      xs.drop m = a :: l → xs.drop (m + 1) = l := by
  induction xs with
  | nil => intro m a l h; simp at h
  | cons x xs ih =>
    intro m a l h
    cases m with
    | zero =>
      rw [List.drop_zero] at h
      cases h
      rfl
    | succ m =>
      rw [List.drop_succ_cons] at h
      rw [List.drop_succ_cons]
      exact ih m a l h

lemma getD_of_drop_cons (xs : List FileHash) :
    ∀ (m : Nat) (a : FileHash) (l : List FileHash),
      xs.drop m = a :: l → xs.getD m default = a := by
  induction xs with
  | nil => intro m a l h; simp at h
  | cons x xs ih =>
    intro m a l h
    cases m with
    | zero =>
      rw [List.drop_zero] at h
      cases h
      rfl
    | succ m =>
      rw [List.drop_succ_cons] at h
      exact ih m a l h

/-- Invariant of the minimizing scan: from any sound intermediate state the
fold returns an in-range index that minimizes the key over everything seen
and strictly beats every earlier index. -/
lemma bestFold_min_spec (key : FileHash → Int) (files : List FileHash) :
    ∀ (l : List FileHash) (m b : Nat) (r : Nat × FileHash),
      files.drop m = l → b < files.length →
      (∀ j, j < m → key (files.getD b default) ≤ key (files.getD j default)) →
      (∀ j, j < b → key (files.getD b default) < key (files.getD j default)) →
      bestFold key m b (files.getD b default) l = r →
      (r.1 < files.length ∧
        (∀ j, j < m + l.length →
          key (files.getD r.1 default) ≤ key (files.getD j default)) ∧
        (∀ j, j < r.1 → key (files.getD r.1 default) < key (files.getD j default))) := by
  intro l
  induction l with
  | nil =>
    intro m b r hdrop hb h2 h3 hr
    rw [bestFold] at hr
    cases hr
    refine ⟨hb, fun j hj => h2 j ?_, h3⟩
    simp only [List.length_nil, Nat.add_zero] at hj
    exact hj
  | cons a l ih =>
    intro m b r hdrop hb h2 h3 hr
    have hm : m < files.length := by
      have hlen := congrArg List.length hdrop
      rw [List.length_drop] at hlen
      simp only [List.length_cons] at hlen
      omega
    have hdrop' : files.drop (m + 1) = l := drop_succ_of_drop_cons files m a l hdrop
    have hma : files.getD m default = a := getD_of_drop_cons files m a l hdrop
    rw [bestFold] at hr
    simp only [List.enumFrom, List.foldl_cons, bestStep] at hr
    by_cases hlt : key a < key (files.getD b default)
    · rw [if_pos (by exact decide_eq_true hlt)] at hr
      have hr' : bestFold key (m + 1) m (files.getD m default) l = r := by
        rw [bestFold, hma]
        exact hr
      have hI2 : ∀ j, j < m + 1 →
          key (files.getD m default) ≤ key (files.getD j default) := by
        intro j hj
        rcases Nat.lt_succ_iff_lt_or_eq.mp hj with hj' | rfl
        · rw [hma]
          exact le_of_lt (lt_of_lt_of_le hlt (h2 j hj'))
        · exact le_refl _
      have hI3 : ∀ j, j < m →
          key (files.getD m default) < key (files.getD j default) := by
        intro j hj
        rw [hma]
        exact lt_of_lt_of_le hlt (h2 j hj)
      obtain ⟨ha, hb2, hc⟩ := ih (m + 1) m r hdrop' hm hI2 hI3 hr'
      exact ⟨ha, fun j hj => hb2 j (by simp only [List.length_cons] at hj ⊢; omega), hc⟩
    · rw [if_neg (by simp only [decide_eq_true_eq]; exact hlt)] at hr
      have hr' : bestFold key (m + 1) b (files.getD b default) l = r := by
        rw [bestFold]
        exact hr
      have hI2 : ∀ j, j < m + 1 →
          key (files.getD b default) ≤ key (files.getD j default) := by
        intro j hj
        rcases Nat.lt_succ_iff_lt_or_eq.mp hj with hj' | rfl
        · exact h2 j hj'
        · rw [hma]
          exact le_of_not_lt hlt
      obtain ⟨ha, hb2, hc⟩ := ih (m + 1) b r hdrop' hb hI2 h3 hr'
      exact ⟨ha, fun j hj => hb2 j (by simp only [List.length_cons] at hj ⊢; omega), hc⟩

/-- The minimizing scan selects the first index attaining the minimum key. -/
lemma bestIdx_min_spec (key : FileHash → Int) (files : List FileHash)
    (hne : files ≠ []) :
    FirstMinSpec key files (bestIdx (fun x y => decide (key x < key y)) files) := by
  have h0 : 0 < files.length := List.length_pos.mpr hne
  have hidx : bestIdx (fun x y => decide (key x < key y)) files =
      (bestFold key 0 0 (files.getD 0 default) files).1 := by
    cases files with
    | nil => exact absurd rfl hne
    | cons a l => rfl
  obtain ⟨h1, h2, h3⟩ := bestFold_min_spec key files files 0 0
    (bestFold key 0 0 (files.getD 0 default) files) rfl h0
    (fun j hj => (Nat.not_lt_zero j hj).elim)
    (fun j hj => (Nat.not_lt_zero j hj).elim) rfl
  rw [FirstMinSpec, hidx]
  exact ⟨h1, fun j hj => h2 j (by omega), h3⟩

/-- The maximizing scan selects the first index attaining the maximum key. -/
lemma bestIdx_max_spec (key : FileHash → Int) (files : List FileHash)
    (hne : files ≠ []) :
    FirstMaxSpec key files (bestIdx (fun x y => decide (key y < key x)) files) := by
  have hfun : (fun x y => decide (key y < key x)) =
      (fun x y => decide ((fun fh => -key fh) x < (fun fh => -key fh) y)) := by
    funext x y
    apply decide_eq_decide.mpr
    show key y < key x ↔ -key x < -key y
    omega
  rw [FirstMaxSpec, hfun]
  obtain ⟨h1, h2, h3⟩ := bestIdx_min_spec (fun fh => -key fh) files hne
  refine ⟨h1, fun j hj => ?_, fun j hj => ?_⟩
  · have h := h2 j hj
    have h' : -key (files.getD
        (bestIdx (fun x y =>
          decide ((fun fh => -key fh) x < (fun fh => -key fh) y)) files) default) ≤
        -key (files.getD j default) := h
    omega
  · have h := h3 j hj
    have h' : -key (files.getD
        (bestIdx (fun x y =>
          decide ((fun fh => -key fh) x < (fun fh => -key fh) y)) files) default) <
        -key (files.getD j default) := h
    omega

end SelectorLemmas

/-- C7: for each of the four extremal policies the selector returns the first
index attaining the policy's extremum (minimum modification time for
`oldest`, maximum for `newest`, maximum size for `largest`, minimum size for
`smallest`), ties broken in favour of the earliest stored member. -/
theorem selectFileToKeep_extremal (cfg : Config) (g : DuplicateGroup)
    (hne : g.Files ≠ []) :
    (cfg.KeepCriteria = "oldest" →
      FirstMinSpec (fun fh => fh.ModTime) g.Files (selectFileToKeep cfg g)) ∧
    (cfg.KeepCriteria = "newest" →
      FirstMaxSpec (fun fh => fh.ModTime) g.Files (selectFileToKeep cfg g)) ∧
    (cfg.KeepCriteria = "largest" →
      FirstMaxSpec (fun fh => fh.Size) g.Files (selectFileToKeep cfg g)) ∧
    (cfg.KeepCriteria = "smallest" →
      FirstMinSpec (fun fh => fh.Size) g.Files (selectFileToKeep cfg g)) := by
  refine ⟨fun h => ?_, fun h => ?_, fun h => ?_, fun h => ?_⟩
  · have hsel : selectFileToKeep cfg g =
        bestIdx (fun fh best => decide (fh.ModTime < best.ModTime)) g.Files := by
      rw [selectFileToKeep, h]
      rfl
    rw [hsel]
    exact bestIdx_min_spec (fun fh => fh.ModTime) g.Files hne
  · have hsel : selectFileToKeep cfg g =
        bestIdx (fun fh best => decide (best.ModTime < fh.ModTime)) g.Files := by
      rw [selectFileToKeep, h]
      rfl
    rw [hsel]
    exact bestIdx_max_spec (fun fh => fh.ModTime) g.Files hne
  · have hsel : selectFileToKeep cfg g =
        bestIdx (fun fh best => decide (best.Size < fh.Size)) g.Files := by
      rw [selectFileToKeep, h]
      rfl
    rw [hsel]
    exact bestIdx_max_spec (fun fh => fh.Size) g.Files hne
  · have hsel : selectFileToKeep cfg g =
        bestIdx (fun fh best => decide (fh.Size < best.Size)) g.Files := by
      rw [selectFileToKeep, h]
      rfl
    rw [hsel]
    exact bestIdx_min_spec (fun fh => fh.Size) g.Files hne

/-- Witness for C7, including the spec's worked example: with `keep=oldest`
and modification times `[T-1h, T-24h, T-12h]` (here `T = 0`, in seconds) the
selector returns index 1, the 24-hour-old file. -/
theorem selectFileToKeep_extremal_witness :
    (⟨"h", 1, [⟨"/f1", 1, "h", -3600, ""⟩, ⟨"/f2", 1, "h", -86400, ""⟩,
        ⟨"/f3", 1, "h", -43200, ""⟩], 100⟩ : DuplicateGroup).Files ≠ [] ∧
    (Config.mk false 10 "oldest").KeepCriteria = "oldest" ∧
    FirstMinSpec (fun fh => fh.ModTime)
      (⟨"h", 1, [⟨"/f1", 1, "h", -3600, ""⟩, ⟨"/f2", 1, "h", -86400, ""⟩,
        ⟨"/f3", 1, "h", -43200, ""⟩], 100⟩ : DuplicateGroup).Files
      (selectFileToKeep (Config.mk false 10 "oldest")
        ⟨"h", 1, [⟨"/f1", 1, "h", -3600, ""⟩, ⟨"/f2", 1, "h", -86400, ""⟩,
          ⟨"/f3", 1, "h", -43200, ""⟩], 100⟩) ∧
    selectFileToKeep (Config.mk false 10 "oldest")
        ⟨"h", 1, [⟨"/f1", 1, "h", -3600, ""⟩, ⟨"/f2", 1, "h", -86400, ""⟩,
          ⟨"/f3", 1, "h", -43200, ""⟩], 100⟩ = 1 :=
  ⟨by decide, rfl,
   (selectFileToKeep_extremal (Config.mk false 10 "oldest")
     ⟨"h", 1, [⟨"/f1", 1, "h", -3600, ""⟩, ⟨"/f2", 1, "h", -86400, ""⟩,
       ⟨"/f3", 1, "h", -43200, ""⟩], 100⟩ (by decide)).1 rfl,
   by decide⟩

/-- Abstract interface to the float-valued and external image primitives that
the fingerprint algorithms are built from (source `part_001`):
`preprocess` is `preprocessImage` with `DefaultPreprocessing`, `resize` is
`resizeImage` (the external Catmull-Rom scaler), `gray` reads the 0-255
integer luminance `grayscale(resized.At(x, y))`, and `cos` is `math.Cos`.
The claims under test concern the averaging/bit structure built on top of
these, which is independent of their values; the DCT arithmetic itself is
embedded exactly over ℚ, where every float64 value the source manipulates
has an abstract stand-in. -/
structure ImageOps (Img : Type) where
  preprocess : Img → Img
  resize : Img → Nat → Nat → Img
  gray : Img → Nat → Nat → Int
  cos : ℚ → ℚ

/-- DCT scaling coefficient (source `applyDCT`): `1/1.414213562` for index 0,
else 1. -/
def dctCu (u : Nat) : ℚ := if u = 0 then 1 / 1.414213562 else 1

/-- Discrete cosine transform as the source computes it (source `part_001`,
`func applyDCT`): `result[v][u] = (Σ_x Σ_y cu·cv·pixels[y][x]·cos((2x+1)·u·π̃/(2n))·cos((2y+1)·v·π̃/(2n))) · 2/n`
with the source's literal `π̃ = 3.14159265359`. -/
def applyDCT (cos : ℚ → ℚ) (size : Nat) (pixels : Nat → Nat → ℚ) :
    Nat → Nat → ℚ :=
  fun v u =>
    (∑ x in Finset.range size, ∑ y in Finset.range size,
      dctCu u * dctCu v * pixels y x *
        cos ((2 * (x : ℚ) + 1) * (u : ℚ) * 3.14159265359 / (2 * (size : ℚ))) *
        cos ((2 * (y : ℚ) + 1) * (v : ℚ) * 3.14159265359 / (2 * (size : ℚ)))) *
      2 / (size : ℚ)

/-- Index pairs `(y, x)` of the 8×8 loops, in the source's iteration order
(`y` outer, `x` inner). -/
def grid8 : List (Nat × Nat) :=
  (List.range 8).flatMap (fun y => (List.range 8).map (fun x => (y, x)))

/-- Average hash (source `part_001`, `func aHash`): resize to 8×8, mean of
the 64 luminances with Go's truncating integer division, bit 1 where the
pixel reaches the mean. -/
def aHash {Img : Type} (ops : ImageOps Img) (img : Img) : String :=
  let resized := ops.resize (ops.preprocess img) 8 8
  let pixels : List Int := grid8.map (fun p => ops.gray resized p.2 p.1)
  let total : Int := pixels.foldl (fun acc g => acc + g) 0
  let avg : Int := total.tdiv 64
  ⟨pixels.map (fun p => if avg ≤ p then '1' else '0')⟩

/-- Perceptual hash (source `part_001`, `func pHash`): resize to 32×32,
DCT, take the top-left 8×8 block, average it excluding the DC coefficient
at (0,0), and emit one bit per coefficient (the DC one included). -/
def pHash {Img : Type} (ops : ImageOps Img) (img : Img) : String :=
  let resized := ops.resize (ops.preprocess img) 32 32
  let pixels : Nat → Nat → ℚ := fun y x =>
    ((ops.gray resized x y : Int) : ℚ)
  let dct := applyDCT ops.cos 32 pixels
  let offDC := grid8.filter (fun p => !(p.1 == 0 && p.2 == 0))
  let total : ℚ := offDC.foldl (fun acc p => acc + dct p.1 p.2) 0
  let count : Nat := offDC.length
  let avg : ℚ := total / (count : ℚ)
  ⟨grid8.map (fun p => if avg ≤ dct p.1 p.2 then '1' else '0')⟩

section ImageLemmas

/-- The 8×8 index grid, spelled out. -/
lemma grid8_eq : grid8 =
    [(0,0),(0,1),(0,2),(0,3),(0,4),(0,5),(0,6),(0,7),
     (1,0),(1,1),(1,2),(1,3),(1,4),(1,5),(1,6),(1,7),
     (2,0),(2,1),(2,2),(2,3),(2,4),(2,5),(2,6),(2,7),
     (3,0),(3,1),(3,2),(3,3),(3,4),(3,5),(3,6),(3,7),
     (4,0),(4,1),(4,2),(4,3),(4,4),(4,5),(4,6),(4,7),
     (5,0),(5,1),(5,2),(5,3),(5,4),(5,5),(5,6),(5,7),
     (6,0),(6,1),(6,2),(6,3),(6,4),(6,5),(6,6),(6,7),
     (7,0),(7,1),(7,2),(7,3),(7,4),(7,5),(7,6),(7,7)] := by rfl

/-- Position `k` of the grid holds the pair `(k / 8, k % 8)`. -/
lemma grid8_get : ∀ k : Fin 64, grid8[k.val]? = some (k.val / 8, k.val % 8) := by
  decide

end ImageLemmas

/-- C6 (amended): `aHash` resizes to 8×8, takes the integer-truncated mean
`total.tdiv 64` of the 64 luminances (Go's `int(total / 64)`), and sets bit
`k` — reading position `(x, y) = (k % 8, k / 8)` — to 1 exactly when that
pixel's luminance reaches the truncated mean.  (The exact rational mean of
the claim differs from the code when `64` does not divide `total`.) -/
theorem aHash_bits_floored_mean {Img : Type} (ops : ImageOps Img) (img : Img) :
    (aHash ops img).length = 64 ∧
    ∀ k : Fin 64,
      (aHash ops img).data.get? k.val =
        some (if (∑ y in Finset.range 8, ∑ x in Finset.range 8,
              ops.gray (ops.resize (ops.preprocess img) 8 8) x y).tdiv 64 ≤
            ops.gray (ops.resize (ops.preprocess img) 8 8) (k.val % 8) (k.val / 8)
          then '1' else '0') := by
  have hfold : (grid8.map (fun p =>
        ops.gray (ops.resize (ops.preprocess img) 8 8) p.2 p.1)).foldl
        (fun acc g => acc + g) 0 =
      ∑ y in Finset.range 8, ∑ x in Finset.range 8,
        ops.gray (ops.resize (ops.preprocess img) 8 8) x y := by
    rw [grid8_eq]
    simp only [List.map_cons, List.map_nil, List.foldl_cons, List.foldl_nil,
      Finset.sum_range_succ, Finset.sum_range_zero]
    ring
  constructor
  · rfl
  · intro k
    have hget : ∀ avg : Int,
        ((grid8.map (fun p =>
            ops.gray (ops.resize (ops.preprocess img) 8 8) p.2 p.1)).map
          (fun p => if avg ≤ p then '1' else '0')).get? k.val =
        some (if avg ≤
            ops.gray (ops.resize (ops.preprocess img) 8 8) (k.val % 8) (k.val / 8)
          then '1' else '0') := by
      intro avg
      rw [List.get?_eq_getElem?, List.getElem?_map, List.getElem?_map, grid8_get k]
      rfl
    rw [← hfold]
    exact hget _

/-- The 8×8 grid without the DC position, spelled out. -/
lemma offDC_eq : grid8.filter (fun p => !(p.1 == 0 && p.2 == 0)) =
    [(0,1),(0,2),(0,3),(0,4),(0,5),(0,6),(0,7),
     (1,0),(1,1),(1,2),(1,3),(1,4),(1,5),(1,6),(1,7),
     (2,0),(2,1),(2,2),(2,3),(2,4),(2,5),(2,6),(2,7),
     (3,0),(3,1),(3,2),(3,3),(3,4),(3,5),(3,6),(3,7),
     (4,0),(4,1),(4,2),(4,3),(4,4),(4,5),(4,6),(4,7),
     (5,0),(5,1),(5,2),(5,3),(5,4),(5,5),(5,6),(5,7),
     (6,0),(6,1),(6,2),(6,3),(6,4),(6,5),(6,6),(6,7),
     (7,0),(7,1),(7,2),(7,3),(7,4),(7,5),(7,6),(7,7)] := by rfl

/-- C5: `pHash` resizes the preprocessed image to 32×32 grayscale, applies
the 2-D DCT, keeps the top-left 8×8 coefficients, averages them EXCLUDING
the DC coefficient at (0,0) — a mean over 63 values — and emits bit
`k = 8·y + x` as 1 exactly when coefficient `(y, x)` (the DC one included)
reaches that mean. -/
theorem pHash_bits_mean_excludes_dc {Img : Type} (ops : ImageOps Img) (img : Img) :
    (pHash ops img).length = 64 ∧
    ∀ k : Fin 64,
      (pHash ops img).data.get? k.val =
        some (if ((∑ a in Finset.range 8, ∑ b in Finset.range 8,
              applyDCT ops.cos 32 (fun y x =>
                ((ops.gray (ops.resize (ops.preprocess img) 32 32) x y : Int) : ℚ)) a b) -
              applyDCT ops.cos 32 (fun y x =>
                ((ops.gray (ops.resize (ops.preprocess img) 32 32) x y : Int) : ℚ)) 0 0)
              / 63 ≤
            applyDCT ops.cos 32 (fun y x =>
              ((ops.gray (ops.resize (ops.preprocess img) 32 32) x y : Int) : ℚ))
              (k.val / 8) (k.val % 8)
          then '1' else '0') := by
  have hfold : ((grid8.filter (fun p => !(p.1 == 0 && p.2 == 0))).foldl
      (fun acc p => acc + applyDCT ops.cos 32 (fun y x =>
        ((ops.gray (ops.resize (ops.preprocess img) 32 32) x y : Int) : ℚ)) p.1 p.2) 0) =
      (∑ a in Finset.range 8, ∑ b in Finset.range 8,
        applyDCT ops.cos 32 (fun y x =>
          ((ops.gray (ops.resize (ops.preprocess img) 32 32) x y : Int) : ℚ)) a b) -
        applyDCT ops.cos 32 (fun y x =>
          ((ops.gray (ops.resize (ops.preprocess img) 32 32) x y : Int) : ℚ)) 0 0 := by
    rw [offDC_eq]
    simp only [List.foldl_cons, List.foldl_nil, Finset.sum_range_succ, Finset.sum_range_zero]
    ring
  have hcount : (((grid8.filter (fun p => !(p.1 == 0 && p.2 == 0))).length : Nat) : ℚ) =
      63 := by
    rw [offDC_eq]
    norm_num
  constructor
  · rfl
  · intro k
    have hget : ∀ avg : ℚ,
        (grid8.map (fun p => if avg ≤ applyDCT ops.cos 32 (fun y x =>
            ((ops.gray (ops.resize (ops.preprocess img) 32 32) x y : Int) : ℚ)) p.1 p.2
          then '1' else '0')).get? k.val =
        some (if avg ≤ applyDCT ops.cos 32 (fun y x =>
            ((ops.gray (ops.resize (ops.preprocess img) 32 32) x y : Int) : ℚ))
            (k.val / 8) (k.val % 8)
          then '1' else '0') := by
      intro avg
      rw [List.get?_eq_getElem?, List.getElem?_map, grid8_get k]
      rfl
    rw [← hfold, ← hcount]
    exact hget _

/-- Concrete image interface for the C6 counterexample: an inert carrier
whose 8×8 luminances are 0 at (0,0) and 1 elsewhere. -/
def opsC6 : ImageOps Unit :=
  ⟨fun u => u, fun u _ _ => u, fun _ x y => if x = 0 ∧ y = 0 then 0 else 1, fun _ => 0⟩

/-- Counterexample for C6 as stated: with 63 pixels of luminance 1 and one of
luminance 0, the code's truncated mean is 0, so the 0-pixel's bit is '1',
while comparing against the exact rational mean 63/64 would give '0'. -/
theorem aHash_exact_mean_counterexample :
    ¬ (∀ k : Fin 64,
        (aHash opsC6 ()).data.get? k.val =
          some (if (∑ y in Finset.range 8, ∑ x in Finset.range 8,
                ((opsC6.gray (opsC6.resize (opsC6.preprocess ()) 8 8) x y : Int) : ℚ)) / 64 ≤
              ((opsC6.gray (opsC6.resize (opsC6.preprocess ()) 8 8)
                (k.val % 8) (k.val / 8) : Int) : ℚ)
            then '1' else '0')) := by
  intro hall
  have h1 : some '1' = some (if (∑ y in Finset.range 8, ∑ x in Finset.range 8,
        ((opsC6.gray (opsC6.resize (opsC6.preprocess ()) 8 8) x y : Int) : ℚ)) / 64 ≤
      ((opsC6.gray (opsC6.resize (opsC6.preprocess ()) 8 8)
        (0 % 8) (0 / 8) : Int) : ℚ)
    then '1' else '0') := (hall ⟨0, by omega⟩).symm.symm
  have hsum : (∑ y in Finset.range 8, ∑ x in Finset.range 8,
      ((opsC6.gray (opsC6.resize (opsC6.preprocess ()) 8 8) x y : Int) : ℚ)) = 63 := by
    norm_num [opsC6, Finset.sum_range_succ]
  have hg : ((opsC6.gray (opsC6.resize (opsC6.preprocess ()) 8 8)
      (0 % 8) (0 / 8) : Int) : ℚ) = 0 := by
    norm_num [opsC6]
  have hC : ¬ ((∑ y in Finset.range 8, ∑ x in Finset.range 8,
      ((opsC6.gray (opsC6.resize (opsC6.preprocess ()) 8 8) x y : Int) : ℚ)) / 64 ≤
      ((opsC6.gray (opsC6.resize (opsC6.preprocess ()) 8 8)
        (0 % 8) (0 / 8) : Int) : ℚ)) := by
    rw [hsum, hg]
    norm_num
  rw [if_neg hC] at h1
  simp at h1
